import Mathlib

/-!
Verification of the face-recognition attendance system (`main.py`,
class `AttendanceSystem`) against its specification.

The embedding below models the decision core of the program:

* `recognizeFace` embeds `AttendanceSystem.recognize_face` (lines 98-145):
  distances from the query encoding to every known face, the boolean match
  list produced by `compare_faces` (distance ≤ tolerance, inclusive), the
  `np.argmin` best-match selection with first-occurrence tie-break, and the
  `Name_RollNo` label parsing with the `"N/A"` fallback.
* `recognizeFromEncodings` embeds the prefix of `recognize_face`
  (lines 111-118) that inspects the list of face encodings found in the
  captured image: zero encodings end the attempt with `None`; otherwise the
  first encoding is used (a warning is printed when there is more than one).
* `check_duplicate_attendance` and `mark_attendance` embed the ledger
  (lines 147-192).  The Excel file is modelled as
  `Option (List AttendanceRecord)`: `none` is an absent file
  (`FileNotFoundError`), `some df` its rows in order.  `datetime.now()` is
  an external effect, so the date and time strings are parameters.
* `load_known_faces` embeds the gallery load (lines 19-49).  The directory
  listing together with the behaviour of `face_recognition` on each file is
  the input: for every filename, an `EncodeResult` saying whether
  loading/encoding raised (`err`) or produced a list of face encodings.

Floating point numbers are modelled as `ℚ`.  Euclidean distance is carried
as its square (`dist2`, which stays rational); the comparison
`face_distance(...) <= tolerance` is the decidable `distLE`, proved
equivalent to `Real.sqrt (dist2 ...) ≤ tolerance` in `distLE_iff_sqrt`.
-/

namespace AttendanceWithFace

/-- A gallery entry: one loaded reference face.  `label` is the filename
without extension (an element of `self.known_names`), `emb` the face
encoding (an element of `self.known_faces`).  The two parallel lists of the
Python class are modelled as one list of pairs, preserving order. -/
structure Entry where
  label : String
  emb : List ℚ
deriving DecidableEq

/-- Squared Euclidean distance between two encodings, as computed (before
the square root) by `face_recognition.face_distance`, i.e.
`np.linalg.norm(known - query)` per row.  Kept squared so it stays in `ℚ`. -/
def dist2 (a b : List ℚ) : ℚ :=
  (List.zipWith (fun x y => (x - y) * (x - y)) a b).sum

/-- The comparison `face_distance(known, enc) <= tolerance` performed by
`face_recognition.compare_faces` (an inclusive threshold on the Euclidean
distance), in decidable form over the squared distance:
`sqrt d ≤ tol  ↔  0 ≤ tol ∧ d ≤ tol²`.  See `distLE_iff_sqrt`. -/
def distLE (d tol : ℚ) : Bool :=
  decide (0 ≤ tol ∧ d ≤ tol * tol)

/-- Minimum of a list of rationals (the minimum of `face_distances`). -/
def minD : List ℚ → ℚ
  | [] => 0
  | [d] => d
  | d :: d' :: ds => min d (minD (d' :: ds))

/-- `np.argmin`: index of the minimum, first occurrence on ties. -/
def argmin : List ℚ → Nat
  | [] => 0
  | [_] => 0
  | d :: d' :: ds => if d ≤ minD (d' :: ds) then 0 else argmin (d' :: ds) + 1

/-- `full_name.split('_', 1)` applied to a list of characters: `none` when
the separator does not occur, otherwise the part before the first separator
and everything after it. -/
def splitFirst (sep : Char) : List Char → Option (List Char × List Char)
  | [] => none
  | c :: cs =>
    if c = sep then some ([], cs)
    else
      match splitFirst sep cs with
      | some (a, b) => some (c :: a, b)
      | none => none

/-- Label parsing of `recognize_face` (lines 131-139): if `'_'` occurs in
the label, `name` is the part before the first underscore and `roll_no`
everything after it; otherwise `name` is the whole label and `roll_no` the
fallback string `"N/A"`. -/
def parseLabel (full : String) : String × String :=
  match splitFirst '_' full.data with
  | some (a, b) => (⟨a⟩, ⟨b⟩)
  | none => (full, "N/A")

/-- `AttendanceSystem.recognize_face` from the captured encoding on
(lines 120-145): compute `face_distances` against all known faces, the
boolean `matches` list (`compare_faces`, inclusive tolerance), and if any
entry matches, take `best_match_index = np.argmin(face_distances)`; if
`matchList[best_match_index]` holds, return the parsed `(name, roll_no)`,
otherwise `None`. -/
def recognizeFace (g : List Entry) (q : List ℚ) (tol : ℚ) :
    Option (String × String) :=
  let faceDistances := g.map fun e => dist2 e.emb q
  let matchList := faceDistances.map fun d => distLE d tol
  if matchList.contains true then
    let best := argmin faceDistances
    if matchList.getD best false then
      some (parseLabel ((g.map Entry.label).getD best ""))
    else
      none
  else
    none

/-- The front of `recognize_face` (lines 111-118): given the list of face
encodings found in the captured image, return `None` when it is empty;
otherwise use the first encoding (`captured_encoding = face_encodings[0]`)
and continue with the gallery comparison.  When more than one face is
present only a warning is printed; the first encoding is still used. -/
def recognizeFromEncodings (g : List Entry) (encs : List (List ℚ))
    (tol : ℚ) : Option (String × String) :=
  match encs with
  | [] => none
  | e :: _ => recognizeFace g e tol

/-- One row of the attendance Excel file, in its fixed column order
`Roll No, Name, Date, Time`. -/
structure AttendanceRecord where
  rollNo : String
  name : String
  date : String
  time : String
deriving DecidableEq

/-- `AttendanceSystem.check_duplicate_attendance` (lines 147-157): read the
file and test whether any row matches both the roll number and the date;
a missing file (`FileNotFoundError`) yields `False`. -/
def check_duplicate_attendance (store : Option (List AttendanceRecord))
    (roll dateStr : String) : Bool :=
  match store with
  | some df => df.any fun r => r.rollNo == roll && r.date == dateStr
  | none => false

/-- `AttendanceSystem.mark_attendance` (lines 159-192) with the date and
time strings derived from `datetime.now()` passed in.  On a duplicate it
returns `False` and performs no write; otherwise it reads the existing rows
(an absent file giving the empty table), appends the new record and writes
the whole collection back, returning `True`.  The result pairs the returned
boolean with the store after the call. -/
def mark_attendance (store : Option (List AttendanceRecord))
    (studentName roll currentDate currentTime : String) :
    Bool × Option (List AttendanceRecord) :=
  if check_duplicate_attendance store roll currentDate then
    (false, store)
  else
    let df := store.getD []
    let newRecord : AttendanceRecord :=
      ⟨roll, studentName, currentDate, currentTime⟩
    (true, some (df ++ [newRecord]))

/-- Number of rows matching a given `(rollNumber, date)` pair — the same
row predicate `check_duplicate_attendance` filters with.  Used to state the
ledger's uniqueness invariant: at most one record per pair. -/
def keyCount (l : List AttendanceRecord) (roll d : String) : Nat :=
  l.countP fun r => r.rollNo == roll && r.date == d

/-- Behaviour of the external loader/encoder on one file:
`err` models an exception raised while loading or encoding the image
(caught per file, lines 46-47); `faces l` models
`face_recognition.face_encodings` returning the list `l`. -/
inductive EncodeResult where
  | err : EncodeResult
  | faces : List (List ℚ) → EncodeResult
deriving DecidableEq

/-- The filename filter of `load_known_faces` (lines 29-32):
`filename.lower().endswith(('.jpg', '.jpeg', '.png'))`, expressed on the
character list — lowercase every character (`str.lower`, which is
`Char.toLower` per character) and test each extension as a suffix. -/
def validExt (filename : String) : Bool :=
  let l := filename.data.map Char.toLower
  List.isSuffixOf ".jpg".data l || List.isSuffixOf ".jpeg".data l ||
    List.isSuffixOf ".png".data l

/-- `os.path.splitext(filename)[0]`: drop the extension after the last dot,
provided some character before that dot (in what would remain) is not a
dot itself — so `".jpg"` has no extension and is returned whole. -/
def stripExt (s : String) : String :=
  match (s.data.reverse.takeWhile fun c => c ≠ '.') with
  | rext =>
    let n := s.data.length - rext.length
    if rext.length < s.data.length ∧ (s.data.take (n - 1)).any (fun c => c ≠ '.') then
      ⟨s.data.take (n - 1)⟩
    else
      s

/-- The state built up by `load_known_faces`: the gallery
(`known_faces` and `known_names` as entries), the files reported as
containing no face (line 45), the files reported as raising an error
(line 47), and the files that were handed to the loader/encoder at all. -/
structure LoadState where
  gallery : List Entry
  noFaceSkips : List String
  errorSkips : List String
  encoderCalls : List String
deriving DecidableEq

/-- The body of the `for filename in os.listdir(...)` loop of
`load_known_faces` (lines 31-47): filenames whose lowercased name does not
end in a valid extension are not touched at all; otherwise the file goes to
the loader/encoder, and depending on the outcome the entry is added to the
gallery (first encoding, label = filename without extension), or the file
is recorded as a no-face skip or an error skip. -/
def loadStep (st : LoadState) (file : String × EncodeResult) : LoadState :=
  if validExt file.1 then
    let st' := { st with encoderCalls := st.encoderCalls ++ [file.1] }
    match file.2 with
    | .err => { st' with errorSkips := st'.errorSkips ++ [file.1] }
    | .faces [] => { st' with noFaceSkips := st'.noFaceSkips ++ [file.1] }
    | .faces (e :: _) =>
        { st' with gallery := st'.gallery ++ [⟨stripExt file.1, e⟩] }
  else
    st

/-- `AttendanceSystem.load_known_faces` (lines 19-49) over a directory
listing paired with the encoder's behaviour on each file. -/
def load_known_faces (files : List (String × EncodeResult)) : LoadState :=
  files.foldl loadStep ⟨[], [], [], []⟩

/-! ### Basic lemmas about distances, minima and argmin -/

theorem dist2_cons (x y : ℚ) (xs ys : List ℚ) :
    dist2 (x :: xs) (y :: ys) = (x - y) * (x - y) + dist2 xs ys := by
  simp [dist2]

theorem dist2_nonneg : ∀ a b : List ℚ, 0 ≤ dist2 a b
  | [], _ => le_of_eq (by simp [dist2])
  | _ :: _, [] => le_of_eq (by simp [dist2])
  | x :: xs, y :: ys => by
    rw [dist2_cons]
    exact add_nonneg (mul_self_nonneg _) (dist2_nonneg xs ys)

/-- `distLE d tol` is exactly the library's inclusive comparison of the
Euclidean distance (the square root of `d`) with the tolerance. -/
theorem distLE_iff_sqrt (d tol : ℚ) :
    distLE d tol = true ↔ Real.sqrt (d : ℝ) ≤ (tol : ℝ) := by
  rw [Real.sqrt_le_iff, distLE, decide_eq_true_eq, pow_two]
  constructor
  · rintro ⟨h1, h2⟩
    exact ⟨by exact_mod_cast h1, by exact_mod_cast h2⟩
  · rintro ⟨h1, h2⟩
    exact ⟨by exact_mod_cast h1, by exact_mod_cast h2⟩

theorem distLE_mono_left {d d' tol : ℚ} (hdd : d' ≤ d)
    (h : distLE d tol = true) : distLE d' tol = true := by
  simp only [distLE, decide_eq_true_eq] at *
  exact ⟨h.1, le_trans hdd h.2⟩

theorem distLE_mono_tol {d tol tol' : ℚ} (htt : tol ≤ tol')
    (h : distLE d tol = true) : distLE d tol' = true := by
  simp only [distLE, decide_eq_true_eq] at *
  exact ⟨le_trans h.1 htt, le_trans h.2 (mul_self_le_mul_self h.1 htt)⟩

theorem minD_mem : ∀ l : List ℚ, l ≠ [] → minD l ∈ l
  | [d], _ => by simp [minD]
  | d :: d' :: ds, _ => by
    rw [show minD (d :: d' :: ds) = min d (minD (d' :: ds)) from rfl]
    rcases le_total d (minD (d' :: ds)) with h | h
    · rw [min_eq_left h]
      exact List.mem_cons_self _ _
    · rw [min_eq_right h]
      exact List.mem_cons_of_mem _ (minD_mem (d' :: ds) (by simp))

theorem minD_le : ∀ l : List ℚ, ∀ x ∈ l, minD l ≤ x
  | [], x, hx => absurd hx (List.not_mem_nil x)
  | [d], x, hx => by
    simp only [List.mem_singleton] at hx
    simp [minD, hx]
  | d :: d' :: ds, x, hx => by
    rcases List.mem_cons.mp hx with h | h
    · subst h
      exact min_le_left _ _
    · exact le_trans (min_le_right _ _) (minD_le (d' :: ds) x h)

theorem argmin_lt_length : ∀ l : List ℚ, l ≠ [] → argmin l < l.length
  | [d], _ => by simp [argmin]
  | d :: d' :: ds, _ => by
    by_cases h : d ≤ minD (d' :: ds)
    · simp [argmin, if_pos h]
    · have ih := argmin_lt_length (d' :: ds) (by simp)
      simp only [argmin, if_neg h, List.length_cons] at *
      omega

theorem getD_argmin_eq_minD : ∀ l : List ℚ, l ≠ [] →
    l.getD (argmin l) 0 = minD l
  | [d], _ => by simp [argmin, minD]
  | d :: d' :: ds, _ => by
    by_cases h : d ≤ minD (d' :: ds)
    · simp [argmin, minD, if_pos h, min_eq_left h]
    · have ih := getD_argmin_eq_minD (d' :: ds) (by simp)
      push_neg at h
      simp only [argmin, if_neg (not_le.mpr h), List.getD_cons_succ, ih]
      rw [show minD (d :: d' :: ds) = min d (minD (d' :: ds)) from rfl,
        min_eq_right h.le]

theorem argmin_le_of_getD_eq : ∀ l : List ℚ, ∀ i, i < l.length →
    l.getD i 0 = minD l → argmin l ≤ i
  | [], _, hi, _ => by simp at hi
  | [d], i, _, _ => by simp [argmin]
  | d :: d' :: ds, i, hi, hgd => by
    by_cases h : d ≤ minD (d' :: ds)
    · simp [argmin, if_pos h]
    · push_neg at h
      have hm : minD (d :: d' :: ds) = minD (d' :: ds) := min_eq_right h.le
      match i with
      | 0 =>
        rw [List.getD_cons_zero, hm] at hgd
        exact absurd hgd h.ne'
      | Nat.succ j =>
        rw [List.getD_cons_succ, hm] at hgd
        have ih := argmin_le_of_getD_eq (d' :: ds) j
          (by simpa using Nat.lt_of_succ_lt_succ hi) hgd
        simp only [argmin, if_neg (not_le.mpr h)]
        omega

theorem getD_map_eq {α β : Type} (f : α → β) (da : α) (db : β) :
    ∀ (l : List α) (i : Nat), i < l.length →
      (l.map f).getD i db = f (l.getD i da)
  | [], _, h => by simp at h
  | x :: xs, 0, _ => by simp
  | x :: xs, i + 1, h => by
    simp only [List.map_cons, List.getD_cons_succ]
    exact getD_map_eq f da db xs i (by simpa using Nat.lt_of_succ_lt_succ h)

theorem contains_true_iff_mem (l : List Bool) :
    l.contains true = true ↔ true ∈ l := by
  induction l with
  | nil => simp
  | cons x xs ih =>
    cases x <;> simp_all

/-! ### Characterization of `recognizeFace` -/

/-- When some gallery entry passes the tolerance test, `recognize_face`
returns the parsed label of the `np.argmin` entry. -/
theorem recognizeFace_eq_some (g : List Entry) (q : List ℚ) (tol : ℚ)
    (h : ∃ e ∈ g, distLE (dist2 e.emb q) tol = true) :
    recognizeFace g q tol =
      some (parseLabel ((g.map Entry.label).getD
        (argmin (g.map fun e => dist2 e.emb q)) "")) := by
  obtain ⟨e, heg, hde⟩ := h
  have hne : g ≠ [] := by
    rintro rfl
    simp at heg
  have hdne : (g.map fun e => dist2 e.emb q) ≠ [] := by
    simpa using hne
  have hmem : dist2 e.emb q ∈ (g.map fun e => dist2 e.emb q) :=
    List.mem_map_of_mem _ heg
  have hminLE : distLE (minD (g.map fun e => dist2 e.emb q)) tol = true :=
    distLE_mono_left (minD_le _ _ hmem) hde
  have hblt : argmin (g.map fun e => dist2 e.emb q) <
      (g.map fun e => dist2 e.emb q).length :=
    argmin_lt_length _ hdne
  have hcont : (((g.map fun e => dist2 e.emb q)).map
      fun d => distLE d tol).contains true = true := by
    rw [contains_true_iff_mem]
    have := List.mem_map_of_mem (fun d => distLE d tol) hmem
    simpa [hde] using this
  have hbest : (((g.map fun e => dist2 e.emb q)).map
      fun d => distLE d tol).getD (argmin (g.map fun e => dist2 e.emb q))
        false = true := by
    rw [getD_map_eq _ 0 false _ _ hblt, getD_argmin_eq_minD _ hdne]
    exact hminLE
  simp only [recognizeFace, hcont, hbest, if_true]

/-- When no gallery entry passes the tolerance test, `recognize_face`
returns `None`. -/
theorem recognizeFace_eq_none (g : List Entry) (q : List ℚ) (tol : ℚ)
    (h : ∀ e ∈ g, distLE (dist2 e.emb q) tol = false) :
    recognizeFace g q tol = none := by
  have hcont : (((g.map fun e => dist2 e.emb q)).map
      fun d => distLE d tol).contains true = false := by
    rw [Bool.eq_false_iff]
    intro hc
    obtain ⟨d, hd, hdt⟩ := List.mem_map.mp ((contains_true_iff_mem _).mp hc)
    obtain ⟨e, he, rfl⟩ := List.mem_map.mp hd
    rw [h e he] at hdt
    cases hdt
  simp only [recognizeFace, hcont, Bool.false_eq_true, if_false]

/-! ### Lemmas about label splitting -/

theorem splitFirst_eq_none : ∀ s : List Char, '_' ∉ s →
    splitFirst '_' s = none
  | [], _ => rfl
  | c :: cs, h => by
    have hc : ¬ c = '_' := fun hh => h (hh ▸ List.mem_cons_self c cs)
    simp only [splitFirst, if_neg hc,
      splitFirst_eq_none cs fun hm => h (List.mem_cons_of_mem c hm)]

theorem splitFirst_append : ∀ a : List Char, '_' ∉ a → ∀ b : List Char,
    splitFirst '_' (a ++ '_' :: b) = some (a, b)
  | [], _, b => by simp [splitFirst]
  | c :: cs, h, b => by
    have hc : ¬ c = '_' := fun hh => h (hh ▸ List.mem_cons_self c cs)
    have ih := splitFirst_append cs (fun hm => h (List.mem_cons_of_mem c hm)) b
    show splitFirst '_' (c :: (cs ++ '_' :: b)) = some (c :: cs, b)
    simp only [splitFirst, if_neg hc, ih]

theorem splitFirst_cons_shape (c : Char) (cs : List Char) (hc : c ≠ '_') :
    splitFirst '_' (c :: cs) = none ∨
      ∃ a b, splitFirst '_' (c :: cs) = some (c :: a, b) := by
  simp only [splitFirst, if_neg hc]
  cases h : splitFirst '_' cs with
  | none => exact Or.inl rfl
  | some p => exact Or.inr ⟨p.1, p.2, by cases p; rfl⟩

/-! ### The claims about the matcher and label parsing -/

/-- C1: `recognize_face` returns a positive match iff the gallery is
non-empty and the minimum Euclidean distance from the query encoding to the
gallery encodings is at most the tolerance — the threshold is inclusive
(distance exactly `tol` accepted, strictly above rejected), and an empty
gallery gives no match for any tolerance. -/
theorem claim_match_iff_min_dist_le (g : List Entry) (q : List ℚ) (tol : ℚ) :
    (recognizeFace g q tol).isSome = true ↔
      g ≠ [] ∧
        Real.sqrt ((minD (g.map fun e => dist2 e.emb q) : ℚ) : ℝ) ≤
          (tol : ℝ) := by
  constructor
  · intro h
    by_cases hex : ∃ e ∈ g, distLE (dist2 e.emb q) tol = true
    · obtain ⟨e, he, hd⟩ := hex
      refine ⟨by rintro rfl; simp at he, ?_⟩
      rw [← distLE_iff_sqrt]
      exact distLE_mono_left (minD_le _ _ (List.mem_map_of_mem _ he)) hd
    · push_neg at hex
      rw [recognizeFace_eq_none g q tol fun e he => by
        simpa using hex e he] at h
      simp at h
  · rintro ⟨hne, hs⟩
    rw [← distLE_iff_sqrt] at hs
    have hl : (g.map fun e => dist2 e.emb q) ≠ [] := by simpa using hne
    obtain ⟨e, he, hmd⟩ := List.mem_map.mp (minD_mem _ hl)
    have hmd' : dist2 e.emb q = minD (g.map fun e => dist2 e.emb q) := by
      simpa using hmd
    have hd : distLE (dist2 e.emb q) tol = true := by
      rw [hmd']
      exact hs
    rw [recognizeFace_eq_some g q tol ⟨e, he, hd⟩]
    rfl

/-- C5: relaxing the tolerance never changes or loses an accepted match:
if `recognize_face` matches at `tol1 < tol2`, it matches at `tol2` with the
same identity. -/
theorem claim_tolerance_monotone (g : List Entry) (q : List ℚ)
    (tol1 tol2 : ℚ) (r : String × String) (hlt : tol1 < tol2)
    (h : recognizeFace g q tol1 = some r) :
    recognizeFace g q tol2 = some r := by
  by_cases hex : ∃ e ∈ g, distLE (dist2 e.emb q) tol1 = true
  · obtain ⟨e, he, hd⟩ := hex
    rw [recognizeFace_eq_some g q tol1 ⟨e, he, hd⟩] at h
    rw [recognizeFace_eq_some g q tol2 ⟨e, he, distLE_mono_tol hlt.le hd⟩]
    exact h
  · push_neg at hex
    rw [recognizeFace_eq_none g q tol1 fun e he => by
      simpa using hex e he] at h
    cases h

theorem claim_tolerance_monotone_witness :
    (1 : ℚ) < 2 ∧
      recognizeFace [⟨"JohnDoe_101", [0]⟩] [0] 1 =
        some ("JohnDoe", "101") ∧
      recognizeFace [⟨"JohnDoe_101", [0]⟩] [0] 2 =
        some ("JohnDoe", "101") :=
  ⟨one_lt_two,
    by simp [recognizeFace, dist2, distLE, argmin, parseLabel, splitFirst],
    claim_tolerance_monotone [⟨"JohnDoe_101", [0]⟩] [0] 1 2
      ("JohnDoe", "101") one_lt_two
      (by simp [recognizeFace, dist2, distLE, argmin, parseLabel,
        splitFirst])⟩

/-- C7: `np.argmin` picks the earliest index among the entries sharing the
minimum distance, and the returned identity is the parsed label of exactly
that entry; `recognize_face` is a pure function of the gallery and query,
so the result is reproducible. -/
theorem claim_tie_break_earliest (g : List Entry) (q : List ℚ) (tol : ℚ) :
    (∀ i, i < g.length →
        (g.map fun e => dist2 e.emb q).getD i 0 =
          minD (g.map fun e => dist2 e.emb q) →
        argmin (g.map fun e => dist2 e.emb q) ≤ i) ∧
    (∀ r, recognizeFace g q tol = some r →
        r = parseLabel ((g.map Entry.label).getD
          (argmin (g.map fun e => dist2 e.emb q)) "")) := by
  constructor
  · intro i hi hgd
    exact argmin_le_of_getD_eq _ i (by simpa using hi) hgd
  · intro r hr
    by_cases hex : ∃ e ∈ g, distLE (dist2 e.emb q) tol = true
    · rw [recognizeFace_eq_some g q tol hex] at hr
      exact (Option.some.inj hr).symm
    · push_neg at hex
      rw [recognizeFace_eq_none g q tol fun e he => by
        simpa using hex e he] at hr
      cases hr

theorem claim_tie_break_earliest_witness :
    argmin (([⟨"A_1", [0]⟩, ⟨"B_2", [0]⟩] : List Entry).map
        fun e => dist2 e.emb [0]) ≤ 1 ∧
      ("A", "1") = parseLabel
        ((([⟨"A_1", [0]⟩, ⟨"B_2", [0]⟩] : List Entry).map Entry.label).getD
          (argmin (([⟨"A_1", [0]⟩, ⟨"B_2", [0]⟩] : List Entry).map
            fun e => dist2 e.emb [0])) "") :=
  ⟨(claim_tie_break_earliest [⟨"A_1", [0]⟩, ⟨"B_2", [0]⟩] [0] 1).1 1
      (by simp) (by simp [dist2, minD]),
    (claim_tie_break_earliest [⟨"A_1", [0]⟩, ⟨"B_2", [0]⟩] [0] 1).2
      ("A", "1") (by simp [recognizeFace, dist2, distLE, argmin, minD,
        parseLabel, splitFirst])⟩

/-- C3 counterexample: the fallback roll number for a label without an
underscore is the string `"N/A"`, not the claimed sentinel `"unknown"`:
on the spec's own scenario label `"JaneSmith"` the code yields
`("JaneSmith", "N/A")`. -/
theorem counterexample_parseLabel_sentinel :
    parseLabel "JaneSmith" = ("JaneSmith", "N/A") ∧
      (parseLabel "JaneSmith").2 ≠ "unknown" :=
  ⟨by decide, by decide⟩

/-- C3 (amended): a label with an underscore splits at the first
underscore into name and roll number; a label without one becomes the
whole-label name with the sentinel roll number `"N/A"`. -/
theorem claim_parseLabel_split :
    (∀ a b : List Char, '_' ∉ a →
        parseLabel ⟨a ++ '_' :: b⟩ = (⟨a⟩, ⟨b⟩)) ∧
    (∀ s : String, '_' ∉ s.data → parseLabel s = (s, "N/A")) := by
  constructor
  · intro a b ha
    simp [parseLabel, splitFirst_append a ha b]
  · intro s hs
    simp [parseLabel, splitFirst_eq_none s.data hs]

theorem claim_parseLabel_split_witness :
    parseLabel ⟨['J', 'o'] ++ '_' :: ['1', '0', '1']⟩ =
        (⟨['J', 'o']⟩, ⟨['1', '0', '1']⟩) ∧
      parseLabel "JaneSmith" = ("JaneSmith", "N/A") :=
  ⟨claim_parseLabel_split.1 ['J', 'o'] ['1', '0', '1'] (by decide),
    claim_parseLabel_split.2 "JaneSmith" (by decide)⟩

/-- C9 counterexample: the derived name is not always non-empty — a label
beginning with the separator, such as `"_101"`, yields the empty name. -/
theorem counterexample_parseLabel_empty_name :
    (parseLabel "_101").1 = "" := by decide

/-- C9 (amended): the derived roll number is always a defined string — the
sentinel `"N/A"` whenever the label has no separator — and the derived name
is non-empty provided the label itself is non-empty and does not begin with
the separator (a label that is empty or starts with `'_'` gives an empty
name). -/
theorem claim_parseLabel_invariant (s : String) :
    (s.data ≠ [] → s.data.head? ≠ some '_' → (parseLabel s).1 ≠ "") ∧
    ('_' ∉ s.data → (parseLabel s).2 = "N/A") := by
  constructor
  · intro hne hhead
    cases hs : s.data with
    | nil => exact absurd hs hne
    | cons c cs =>
      have hc : c ≠ '_' := by
        rw [hs] at hhead
        simpa using hhead
      have hempty : s ≠ "" := by
        intro hemp
        rw [hemp] at hs
        cases hs
      rw [parseLabel, hs]
      rcases splitFirst_cons_shape c cs hc with h | ⟨a, b, h⟩
      · rw [h]
        exact hempty
      · rw [h]
        intro hcontra
        have : c :: a = ("" : String).data := congrArg String.data hcontra
        cases this
  · intro hs
    simp [parseLabel, splitFirst_eq_none s.data hs]

theorem claim_parseLabel_invariant_witness :
    (parseLabel "a1").1 ≠ "" ∧ (parseLabel "a1").2 = "N/A" :=
  ⟨(claim_parseLabel_invariant "a1").1 (by decide) (by decide),
    (claim_parseLabel_invariant "a1").2 (by decide)⟩

/-- C4 counterexample: when the captured image yields more than one face
encoding, the code does not stop with an ambiguous outcome — it matches the
first encoding against the gallery.  With two encodings the attempt ends in
a positive match, so the matcher was invoked. -/
theorem counterexample_multiface_matches :
    recognizeFromEncodings [⟨"JohnDoe_101", [0]⟩] [[0], [5]] 1 =
      some ("JohnDoe", "101") := by
  simp [recognizeFromEncodings, recognizeFace, dist2, distLE, argmin,
    parseLabel, splitFirst]

/-- C4 (amended): only zero encodings end the attempt without consulting
the gallery; with several encodings a warning is printed, the first
encoding is used, the matcher is invoked on it, and the remaining
encodings are ignored. -/
theorem claim_multiface_uses_first (g : List Entry) (e : List ℚ)
    (r1 r2 : List (List ℚ)) (tol : ℚ) :
    recognizeFromEncodings g [] tol = none ∧
    recognizeFromEncodings g (e :: r1) tol = recognizeFace g e tol ∧
    recognizeFromEncodings g (e :: r1) tol =
      recognizeFromEncodings g (e :: r2) tol :=
  ⟨rfl, rfl, rfl⟩

/-! ### Lemmas about the attendance ledger -/

theorem mark_of_not_dup (store : Option (List AttendanceRecord))
    (nm roll d t : String)
    (h : check_duplicate_attendance store roll d = false) :
    mark_attendance store nm roll d t =
      (true, some (store.getD [] ++ [⟨roll, nm, d, t⟩])) := by
  simp [mark_attendance, h]

theorem mark_of_dup (store : Option (List AttendanceRecord))
    (nm roll d t : String)
    (h : check_duplicate_attendance store roll d = true) :
    mark_attendance store nm roll d t = (false, store) := by
  simp [mark_attendance, h]

theorem check_dup_append_self (df : List AttendanceRecord)
    (nm roll d t : String) :
    check_duplicate_attendance (some (df ++ [⟨roll, nm, d, t⟩])) roll d =
      true := by
  simp [check_duplicate_attendance]

theorem keyCount_eq_zero_of_not_dup (store : Option (List AttendanceRecord))
    (roll d : String)
    (h : check_duplicate_attendance store roll d = false) :
    keyCount (store.getD []) roll d = 0 := by
  cases store with
  | none => simp [keyCount]
  | some df =>
    simp only [check_duplicate_attendance, List.any_eq_false] at h
    simp only [Option.getD_some, keyCount, List.countP_eq_zero]
    exact h

/-- Every call path of `mark_attendance` preserves the at-most-one-record
per `(rollNumber, date)` invariant. -/
theorem mark_preserves_uniq (store : Option (List AttendanceRecord))
    (nm roll d t r dd : String)
    (h : keyCount (store.getD []) r dd ≤ 1) :
    keyCount ((mark_attendance store nm roll d t).2.getD []) r dd ≤ 1 := by
  by_cases hdup : check_duplicate_attendance store roll d = true
  · rw [mark_of_dup store nm roll d t hdup]
    exact h
  · have hfalse : check_duplicate_attendance store roll d = false := by
      simpa using hdup
    rw [mark_of_not_dup store nm roll d t hfalse]
    simp only [Option.getD_some, keyCount, List.countP_append]
    by_cases hkey : roll = r ∧ d = dd
    · obtain ⟨rfl, rfl⟩ := hkey
      have h0 := keyCount_eq_zero_of_not_dup store roll d hfalse
      simp only [keyCount] at h0
      rw [h0]
      have hle := List.countP_le_length
        (fun rec => rec.rollNo == roll && rec.date == d)
        (l := [(⟨roll, nm, d, t⟩ : AttendanceRecord)])
      simp only [List.length_cons, List.length_nil] at hle
      omega
    · have hp : ((⟨roll, nm, d, t⟩ : AttendanceRecord).rollNo == r &&
          (⟨roll, nm, d, t⟩ : AttendanceRecord).date == dd) = false := by
        rw [Bool.eq_false_iff]
        intro hc
        apply hkey
        simpa [Bool.and_eq_true, beq_iff_eq] using hc
      simp only [keyCount] at h
      simp [List.countP_cons, hp, h]

/-! ### The claims about the ledger -/

/-- C8: `check_duplicate_attendance` answers `True` exactly when some
persisted row matches both the roll number and the date (string equality on
both fields), and answers `False` — rather than failing — when the
attendance file does not exist yet. -/
theorem claim_check_duplicate_spec (l : List AttendanceRecord)
    (roll d : String) :
    check_duplicate_attendance none roll d = false ∧
      (check_duplicate_attendance (some l) roll d = true ↔
        ∃ r ∈ l, r.rollNo = roll ∧ r.date = d) := by
  refine ⟨rfl, ?_⟩
  simp [check_duplicate_attendance, List.any_eq_true, Bool.and_eq_true,
    beq_iff_eq]

/-- C2: when no record for `(roll, date)` exists yet, marking attendance
returns `True` and appends exactly one record; a second call on the same
roll number and date — any time of day — returns `False` and leaves the
store unchanged; and `mark_attendance` preserves the at-most-one-record per
`(rollNumber, date)` invariant. -/
theorem claim_mark_idempotent (store : Option (List AttendanceRecord))
    (nm roll d t t' r dd : String)
    (h : check_duplicate_attendance store roll d = false) :
    (mark_attendance store nm roll d t).1 = true ∧
    (mark_attendance store nm roll d t).2 =
      some (store.getD [] ++ [⟨roll, nm, d, t⟩]) ∧
    (mark_attendance (mark_attendance store nm roll d t).2
        nm roll d t').1 = false ∧
    (mark_attendance (mark_attendance store nm roll d t).2
        nm roll d t').2 = (mark_attendance store nm roll d t).2 ∧
    (keyCount (store.getD []) r dd ≤ 1 →
      keyCount ((mark_attendance store nm roll d t).2.getD []) r dd ≤ 1) := by
  have h1 := mark_of_not_dup store nm roll d t h
  have hdup2 := check_dup_append_self (store.getD []) nm roll d t
  refine ⟨by rw [h1], by rw [h1], ?_, ?_,
    mark_preserves_uniq store nm roll d t r dd⟩
  · simp only [h1]
    rw [mark_of_dup _ nm roll d t' hdup2]
  · simp only [h1]
    rw [mark_of_dup _ nm roll d t' hdup2]

theorem claim_mark_idempotent_witness :
    (mark_attendance none "JohnDoe" "101" "2026-10-12" "09:00:00").1 =
        true ∧
      (mark_attendance
        (mark_attendance none "JohnDoe" "101" "2026-10-12" "09:00:00").2
        "JohnDoe" "101" "2026-10-12" "09:05:00").1 = false :=
  ⟨(claim_mark_idempotent none "JohnDoe" "101" "2026-10-12" "09:00:00"
      "09:05:00" "101" "2026-10-12" rfl).1,
    (claim_mark_idempotent none "JohnDoe" "101" "2026-10-12" "09:00:00"
      "09:05:00" "101" "2026-10-12" rfl).2.2.1⟩

/-- C6: a successful mark returns `True` and writes the previous rows,
verbatim and in order, followed by exactly one new record: every
pre-existing row (any identity) is unchanged at its original index, and the
length grows by exactly one. -/
theorem claim_mark_frame (store : Option (List AttendanceRecord))
    (nm roll d t : String)
    (h : check_duplicate_attendance store roll d = false) :
    (mark_attendance store nm roll d t).1 = true ∧
    (mark_attendance store nm roll d t).2 =
      some (store.getD [] ++ [⟨roll, nm, d, t⟩]) ∧
    (∀ i, i < (store.getD []).length →
      ((mark_attendance store nm roll d t).2.getD []).getD i
          ⟨"", "", "", ""⟩ =
        (store.getD []).getD i ⟨"", "", "", ""⟩) ∧
    ((mark_attendance store nm roll d t).2.getD []).length =
      (store.getD []).length + 1 := by
  have h1 := mark_of_not_dup store nm roll d t h
  refine ⟨by rw [h1], by rw [h1], ?_, by simp [h1]⟩
  intro i hi
  simp only [h1, Option.getD_some]
  exact List.getD_append _ _ _ _ hi

theorem claim_mark_frame_witness :
    (mark_attendance (some [⟨"202", "B", "2026-10-12", "08:00:00"⟩])
        "JohnDoe" "101" "2026-10-12" "09:00:00").2 =
      some ([⟨"202", "B", "2026-10-12", "08:00:00"⟩] ++
        [⟨"101", "JohnDoe", "2026-10-12", "09:00:00"⟩]) ∧
    ((mark_attendance (some [⟨"202", "B", "2026-10-12", "08:00:00"⟩])
        "JohnDoe" "101" "2026-10-12" "09:00:00").2.getD []).getD 0
        ⟨"", "", "", ""⟩ =
      ⟨"202", "B", "2026-10-12", "08:00:00"⟩ :=
  ⟨(claim_mark_frame (some [⟨"202", "B", "2026-10-12", "08:00:00"⟩])
      "JohnDoe" "101" "2026-10-12" "09:00:00" (by decide)).2.1,
    ((claim_mark_frame (some [⟨"202", "B", "2026-10-12", "08:00:00"⟩])
      "JohnDoe" "101" "2026-10-12" "09:00:00" (by decide)).2.2.1 0
      (by decide)).trans (by decide)⟩

/-- C10: a directory entry whose lowercased name does not end in `.jpg`,
`.jpeg` or `.png` is skipped silently by `load_known_faces`: removing it
from the listing changes nothing — the gallery (and so the loaded total),
the reported no-face skips, the reported error skips, and the set of files
handed to the loader/encoder are all identical, whatever the encoder would
have done on it. -/
theorem claim_invalid_extension_skipped
    (pre post : List (String × EncodeResult)) (f : String × EncodeResult)
    (h : validExt f.1 = false) :
    load_known_faces (pre ++ f :: post) = load_known_faces (pre ++ post) := by
  have hstep : ∀ st, loadStep st f = st := by
    intro st
    unfold loadStep
    rw [h]
    simp
  unfold load_known_faces
  rw [List.foldl_append, List.foldl_append, List.foldl_cons, hstep]

theorem claim_invalid_extension_skipped_witness :
    load_known_faces ([("a_1.jpg", EncodeResult.faces [[0]])] ++
        ("notes.txt", EncodeResult.faces [[0]]) :: []) =
      load_known_faces ([("a_1.jpg", EncodeResult.faces [[0]])] ++ []) :=
  claim_invalid_extension_skipped [("a_1.jpg", EncodeResult.faces [[0]])]
    [] ("notes.txt", EncodeResult.faces [[0]]) (by decide)

end AttendanceWithFace
